import Mathlib

/-!
Verification of the seal-rs evaluation layer for leveled homomorphic
encryption. The Rust crate wraps a native lattice engine through FFI; the
spec treats that engine as a black box with a documented metadata contract
(level ids, scales, sizes). We embed the ciphertext/plaintext metadata
state, the engine contract as the spec documents it, and the Rust wrapper
layer (handle allocation, destination passing, the sign-approximation
extension) as it appears in the source.
-/

namespace SealRS

/-- Scheme kind carried by the active context (BFV is exact-integer,
CKKS tracks an encoding scale). -/
inductive Scheme where
  | bfv
  | ckks
deriving DecidableEq

/-- Error taxonomy of the evaluation layer, from the spec's error handling
design: level mismatches, chain exhaustion, insufficient key material,
invalid rotation steps, representation mismatches, and opaque engine
failures. -/
inductive SealError where
  | levelMismatch
  | chainExhausted
  | insufficientKeyMaterial
  | invalidRotationStep
  | representationMismatch
  | invalidLevelTarget
  | engineFailure
deriving DecidableEq

/-- Metadata and abstract decrypted content of a ciphertext: its level id
(number of modulus-chain steps already descended, 0 = freshly encrypted),
its encoding scale, its size (number of polynomial components), and the
abstract plaintext value it decrypts to. -/
structure CiphertextData where
  level : Nat
  scale : ℚ
  size : Nat
  value : ℤ
deriving DecidableEq

/-- Metadata and abstract content of an encoded plaintext operand. -/
structure PlaintextData where
  level : Nat
  scale : ℚ
  value : ℤ
deriving DecidableEq

/-- Relinearization key material: the number of keys provisioned. A
ciphertext of size K+1 needs at least K-1 keys to relinearize. -/
structure RelinKeys where
  count : Nat
deriving DecidableEq

/-- Galois (rotation) key material, an opaque capability token. -/
structure GaloisKeys where
  present : Bool
deriving DecidableEq

/-- The active context: scheme kind, the ordered list of modulus
magnitudes dropped at each rescale/mod-switch step (so the bottom of the
chain is reached after `chain.length` steps), and half the encoded vector
width (the batched matrix is 2 rows of this many slots). -/
structure Context where
  scheme : Scheme
  chain : List ℚ
  slotsHalf : Nat

/-- Modelled from the spec: ciphertext addition in the native engine.
Operands must share level id (fails with `LevelMismatch` otherwise) and
scale; addition preserves size (max of the operand sizes, preserving it
for equal-size operands), scale, and level, and adds decrypted values. -/
def engineAdd (a b : CiphertextData) : Except SealError CiphertextData :=
  if a.level ≠ b.level then .error .levelMismatch
  else if a.scale ≠ b.scale then .error .engineFailure
  else .ok { level := a.level, scale := a.scale, size := max a.size b.size,
             value := a.value + b.value }

/-- Modelled from the spec: ciphertext subtraction in the native engine;
same level/scale contract as addition, subtracting decrypted values. -/
def engineSub (a b : CiphertextData) : Except SealError CiphertextData :=
  if a.level ≠ b.level then .error .levelMismatch
  else if a.scale ≠ b.scale then .error .engineFailure
  else .ok { level := a.level, scale := a.scale, size := max a.size b.size,
             value := a.value - b.value }

/-- Modelled from the spec: ciphertext negation in the native engine;
preserves size, scale, and level, and negates the decrypted value. -/
def engineNegate (a : CiphertextData) : Except SealError CiphertextData :=
  .ok { a with value := -a.value }

/-- Modelled from the spec: ciphertext multiplication in the native
engine. Operands must share level id (fails with `LevelMismatch`
otherwise); the result's size is the sum of operand sizes minus 1 and its
scale is the product of operand scales; no scale-overflow condition is
checked here. -/
def engineMultiply (a b : CiphertextData) : Except SealError CiphertextData :=
  if a.level ≠ b.level then .error .levelMismatch
  else .ok { level := a.level, scale := a.scale * b.scale,
             size := a.size + b.size - 1, value := a.value * b.value }

/-- Modelled from the spec: squaring is a specialized self-multiply with
the same size/scale rule using the operand size twice. -/
def engineSquare (a : CiphertextData) : Except SealError CiphertextData :=
  engineMultiply a a

/-- Modelled from the spec: relinearization in the native engine. A
ciphertext of size K+1 needs at least K-1 relinearization keys; with
sufficient keys the size is reduced to 2 with level, scale, and decrypted
value unchanged; otherwise it fails with `InsufficientKeyMaterial`. -/
def engineRelinearize (keys : RelinKeys) (a : CiphertextData) :
    Except SealError CiphertextData :=
  if a.size ≤ keys.count + 2 then .ok { a with size := 2 }
  else .error .insufficientKeyMaterial

/-- Modelled from the spec: ciphertext-plaintext addition; operands must
share level id and scale; size is unchanged by plain operations. -/
def engineAddPlain (a : CiphertextData) (p : PlaintextData) :
    Except SealError CiphertextData :=
  if a.level ≠ p.level then .error .levelMismatch
  else if a.scale ≠ p.scale then .error .engineFailure
  else .ok { a with value := a.value + p.value }

/-- Modelled from the spec: ciphertext-plaintext subtraction; operands
must share level id and scale; size is unchanged by plain operations. -/
def engineSubPlain (a : CiphertextData) (p : PlaintextData) :
    Except SealError CiphertextData :=
  if a.level ≠ p.level then .error .levelMismatch
  else if a.scale ≠ p.scale then .error .engineFailure
  else .ok { a with value := a.value - p.value }

/-- Modelled from the spec: ciphertext-plaintext multiplication; operands
must share level id; the result scale is the product of operand scales and
plain multiplication does not change the size. -/
def engineMultiplyPlain (a : CiphertextData) (p : PlaintextData) :
    Except SealError CiphertextData :=
  if a.level ≠ p.level then .error .levelMismatch
  else .ok { a with scale := a.scale * p.scale, value := a.value * p.value }

/-- Modelled from the spec: rescale-to-next in the native engine. Valid
only on ciphertexts whose scheme uses scale tracking (CKKS); requires the
level id not already at the bottom of the chain (fails with
`ChainExhausted` there); on success it divides the scale by the dropped
modulus magnitude and advances the level id by one step. -/
def engineRescaleToNext (ctx : Context) (a : CiphertextData) :
    Except SealError CiphertextData :=
  if ctx.scheme ≠ Scheme.ckks then .error .engineFailure
  else
    match ctx.chain[a.level]? with
    | some m => .ok { a with level := a.level + 1, scale := a.scale / m }
    | none => .error .chainExhausted

/-- Modelled from the spec: mod-switch-to-next moves a ciphertext one
step down the modulus chain without touching the scale; it fails with
`ChainExhausted` past the bottom of the chain. -/
def engineModSwitchToNext (ctx : Context) (a : CiphertextData) :
    Except SealError CiphertextData :=
  match ctx.chain[a.level]? with
  | some _ => .ok { a with level := a.level + 1 }
  | none => .error .chainExhausted

/-- Modelled from the spec: row rotation cyclically permutes one matrix
dimension of the batched view; step counts of absolute value at least half
the encoded vector width fail with `InvalidRotationStep`; metadata is
unchanged. The slot permutation itself is below the granularity of the
abstract decrypted value. -/
def engineRotateRows (ctx : Context) (steps : Int) (gk : GaloisKeys)
    (a : CiphertextData) : Except SealError CiphertextData :=
  if gk.present = false then .error .insufficientKeyMaterial
  else if ctx.slotsHalf ≤ steps.natAbs then .error .invalidRotationStep
  else .ok a

/-- Modelled from the spec: column rotation is a fixed involution (swap
of the two matrix rows) requiring no step argument; metadata unchanged. -/
def engineRotateColumns (gk : GaloisKeys) (a : CiphertextData) :
    Except SealError CiphertextData :=
  if gk.present = false then .error .insufficientKeyMaterial
  else .ok a

/-! ## Claims C2 - C5: the primitive operation contracts -/

/-- C2: for every ciphertext `a` and relinearization keys sufficient for
`a`'s current size, `relinearize(a, keys)` returns a ciphertext of size
exactly 2 regardless of `a`'s input size, with level id and scale
unchanged and the same decrypted value as `a`. -/
theorem relinearize_reduces_size_to_two (keys : RelinKeys) (a : CiphertextData)
    (hkeys : a.size ≤ keys.count + 2) :
    ∃ r, engineRelinearize keys a = .ok r ∧ r.size = 2 ∧
      r.level = a.level ∧ r.scale = a.scale ∧ r.value = a.value := by
  refine ⟨{ a with size := 2 }, ?_, rfl, rfl, rfl, rfl⟩
  simp [engineRelinearize, hkeys]

/-- Witness for C2: a size-5 ciphertext and three relinearization keys
satisfy the key-sufficiency hypothesis, and relinearization reduces it to
size 2 with level, scale, and value intact. -/
theorem relinearize_reduces_size_to_two_witness :
    (5 : Nat) ≤ (RelinKeys.mk 3).count + 2 ∧
    ∃ r, engineRelinearize (RelinKeys.mk 3) (CiphertextData.mk 1 4 5 7) = .ok r ∧
      r.size = 2 ∧ r.level = 1 ∧ r.scale = 4 ∧ r.value = 7 :=
  ⟨by decide, relinearize_reduces_size_to_two (RelinKeys.mk 3)
    (CiphertextData.mk 1 4 5 7) (by decide)⟩

/-- C3: under a scale-tracking scheme, rescale-to-next succeeds if and
only if the level id is not at the bottom of the modulus chain; on success
it advances the level id by exactly one step and divides the scale by the
dropped modulus's magnitude (leaving the decrypted value and size
untouched), and at the bottom it fails with `ChainExhausted`. -/
theorem rescale_to_next_spec (ctx : Context) (a : CiphertextData)
    (hscheme : ctx.scheme = Scheme.ckks) :
    ((∃ r, engineRescaleToNext ctx a = .ok r) ↔ a.level < ctx.chain.length) ∧
    (∀ r, engineRescaleToNext ctx a = .ok r →
      r.level = a.level + 1 ∧
      (∃ m, ctx.chain[a.level]? = some m ∧ r.scale = a.scale / m) ∧
      r.value = a.value ∧ r.size = a.size) ∧
    (¬ a.level < ctx.chain.length →
      engineRescaleToNext ctx a = .error .chainExhausted) := by
  have hs : ¬ ctx.scheme ≠ Scheme.ckks := by simp [hscheme]
  rcases hm : ctx.chain[a.level]? with _ | m
  · have hlen : ctx.chain.length ≤ a.level := by
      simpa using hm
    refine ⟨⟨?_, ?_⟩, ?_, ?_⟩
    · rintro ⟨r, hr⟩
      simp [engineRescaleToNext, hs, hm] at hr
    · intro hlt; omega
    · intro r hr
      simp [engineRescaleToNext, hs, hm] at hr
    · intro _
      simp [engineRescaleToNext, hs, hm]
  · have hlt : a.level < ctx.chain.length := by
      by_contra hcon
      rw [List.getElem?_eq_none (by omega)] at hm
      exact Option.noConfusion hm
    refine ⟨⟨fun _ => hlt, fun _ => ?_⟩, ?_, fun hcon => absurd hlt hcon⟩
    · exact ⟨{ a with level := a.level + 1, scale := a.scale / m },
        by simp [engineRescaleToNext, hs, hm]⟩
    · intro r hr
      simp [engineRescaleToNext, hs, hm] at hr
      exact ⟨by rw [← hr], ⟨m, rfl, by rw [← hr]⟩, by rw [← hr], by rw [← hr]⟩

/-- Witness for C3: a CKKS context with a one-step chain; a ciphertext at
the top level rescales (dividing its scale by the dropped modulus), and
the same theorem applied to a bottom-level ciphertext reports
`ChainExhausted` via its third conjunct. -/
theorem rescale_to_next_spec_witness :
    (Context.mk Scheme.ckks [2] 4).scheme = Scheme.ckks ∧
    ((∃ r, engineRescaleToNext (Context.mk Scheme.ckks [2] 4)
        (CiphertextData.mk 0 4 2 3) = .ok r) ↔
      (0 : Nat) < (Context.mk Scheme.ckks [2] 4).chain.length) :=
  ⟨rfl, (rescale_to_next_spec (Context.mk Scheme.ckks [2] 4)
    (CiphertextData.mk 0 4 2 3) rfl).1⟩

/-- C4: every binary operation among add, subtract, multiply and their
plaintext variants fails with `LevelMismatch` when its operands carry
different level ids. -/
theorem binary_ops_level_mismatch (a b : CiphertextData) (p : PlaintextData)
    (hab : a.level ≠ b.level) (hap : a.level ≠ p.level) :
    engineAdd a b = .error .levelMismatch ∧
    engineSub a b = .error .levelMismatch ∧
    engineMultiply a b = .error .levelMismatch ∧
    engineAddPlain a p = .error .levelMismatch ∧
    engineSubPlain a p = .error .levelMismatch ∧
    engineMultiplyPlain a p = .error .levelMismatch := by
  refine ⟨?_, ?_, ?_, ?_, ?_, ?_⟩ <;>
    simp [engineAdd, engineSub, engineMultiply, engineAddPlain,
      engineSubPlain, engineMultiplyPlain, hab, hap]

/-- Witness for C4: a level-0 ciphertext against a level-1 ciphertext and
a level-1 plaintext; all six binary operations report `LevelMisatch`
rather than succeeding. -/
theorem binary_ops_level_mismatch_witness :
    engineAdd (CiphertextData.mk 0 1 2 3) (CiphertextData.mk 1 1 2 3) =
      .error .levelMismatch ∧
    engineSub (CiphertextData.mk 0 1 2 3) (CiphertextData.mk 1 1 2 3) =
      .error .levelMismatch ∧
    engineMultiply (CiphertextData.mk 0 1 2 3) (CiphertextData.mk 1 1 2 3) =
      .error .levelMismatch ∧
    engineAddPlain (CiphertextData.mk 0 1 2 3) (PlaintextData.mk 1 1 3) =
      .error .levelMismatch ∧
    engineSubPlain (CiphertextData.mk 0 1 2 3) (PlaintextData.mk 1 1 3) =
      .error .levelMismatch ∧
    engineMultiplyPlain (CiphertextData.mk 0 1 2 3) (PlaintextData.mk 1 1 3) =
      .error .levelMismatch :=
  binary_ops_level_mismatch (CiphertextData.mk 0 1 2 3)
    (CiphertextData.mk 1 1 2 3) (PlaintextData.mk 1 1 3)
    (by decide) (by decide)

/-- C5: multiplying ciphertexts of sizes m and n at equal level succeeds
with a result of size m + n - 1 and scale equal to the product of the
operand scales; no scale-overflow error is raised at multiplication
time. -/
theorem multiply_size_and_scale (a b : CiphertextData)
    (hlevel : a.level = b.level) :
    ∃ c, engineMultiply a b = .ok c ∧ c.size = a.size + b.size - 1 ∧
      c.scale = a.scale * b.scale ∧ c.level = a.level ∧
      c.value = a.value * b.value := by
  refine ⟨{ level := a.level, scale := a.scale * b.scale,
            size := a.size + b.size - 1, value := a.value * b.value },
    ?_, rfl, rfl, rfl, rfl⟩
  simp [engineMultiply, hlevel]

/-- Witness for C5: two size-2 ciphertexts at level 0 with scales 2 and 3
multiply into a size-3 ciphertext with scale 6. -/
theorem multiply_size_and_scale_witness :
    (CiphertextData.mk 0 2 2 5).level = (CiphertextData.mk 0 3 2 7).level ∧
    ∃ c, engineMultiply (CiphertextData.mk 0 2 2 5) (CiphertextData.mk 0 3 2 7) =
        .ok c ∧ c.size = 3 ∧ c.scale = 6 ∧ c.level = 0 ∧ c.value = 35 := by
  refine ⟨rfl, ?_⟩
  obtain ⟨c, hc, h1, h2, h3, h4⟩ := multiply_size_and_scale
    (CiphertextData.mk 0 2 2 5) (CiphertextData.mk 0 3 2 7) rfl
  exact ⟨c, hc, by simpa using h1, by rw [h2]; norm_num,
    by simpa using h3, by rw [h4]; norm_num⟩

/-! ## Claims C6 - C7: reduction algorithms -/

/-- Modelled from the spec: one pairwise ciphertext multiply immediately
followed by relinearization, the step shared by multiply-many and
exponentiate to keep ciphertext size bounded. -/
def mulRelin (keys : RelinKeys) (a b : CiphertextData) :
    Except SealError CiphertextData :=
  match engineMultiply a b with
  | .error e => .error e
  | .ok m => engineRelinearize keys m

theorem mulRelin_ok (keys : RelinKeys) (a b : CiphertextData)
    (hL : a.level = b.level) (ha : a.size = 2) (hb : b.size = 2)
    (hk : 1 ≤ keys.count) :
    mulRelin keys a b =
      .ok { level := a.level, scale := a.scale * b.scale,
            size := 2, value := a.value * b.value } := by
  have hle : a.size + b.size - 1 ≤ keys.count + 2 := by omega
  simp [mulRelin, engineMultiply, hL, engineRelinearize, hle]

/-- Modelled from the spec: multiply-many builds a depth-balanced binary
multiplication tree over a non-empty operand list (splitting the list in
half and recursing), relinearizing after every pairwise multiply; the
empty list is an invalid argument surfaced as an engine failure. -/
def multiply_many (keys : RelinKeys) (l : List CiphertextData) :
    Except SealError CiphertextData :=
  match l with
  | [] => .error .engineFailure
  | [a] => .ok a
  | a :: b :: rest =>
    match multiply_many keys ((a :: b :: rest).take ((a :: b :: rest).length / 2)) with
    | .error e => .error e
    | .ok left =>
      match multiply_many keys ((a :: b :: rest).drop ((a :: b :: rest).length / 2)) with
      | .error e => .error e
      | .ok right => mulRelin keys left right
  termination_by l.length
  decreasing_by
  · simp [List.length_take]; omega
  · simp [List.length_drop]; omega

/-- The left-to-right chain of relinearized multiplications that the spec
names as the value-reference for multiply-many. -/
def multiplyLinearChain (keys : RelinKeys) (l : List CiphertextData) :
    Except SealError CiphertextData :=
  match l with
  | [] => .error .engineFailure
  | a :: rest => rest.foldlM (mulRelin keys) a

theorem multiply_many_ok (keys : RelinKeys) (L : Nat) (hk : 1 ≤ keys.count) :
    ∀ (n : Nat) (l : List CiphertextData), l.length ≤ n → l ≠ [] →
      (∀ c ∈ l, c.level = L ∧ c.size = 2) →
      ∃ r, multiply_many keys l = .ok r ∧ r.level = L ∧ r.size = 2 ∧
        r.value = (l.map CiphertextData.value).prod := by
  intro n
  induction n with
  | zero =>
    intro l hlen hne _
    cases l with
    | nil => exact absurd rfl hne
    | cons a t => simp at hlen
  | succ n ih =>
    intro l hlen hne hmem
    match l with
    | [] => exact absurd rfl hne
    | [a] =>
      obtain ⟨h1, h2⟩ := hmem a (by simp)
      exact ⟨a, by simp [multiply_many], h1, h2, by simp⟩
    | a :: b :: rest =>
      have hlen2 : (a :: b :: rest).length = rest.length + 2 := by simp
      have hkk : 1 ≤ (a :: b :: rest).length / 2 := by omega
      have hklt : (a :: b :: rest).length / 2 < (a :: b :: rest).length := by omega
      have htake : ((a :: b :: rest).take ((a :: b :: rest).length / 2)).length
          = (a :: b :: rest).length / 2 := by
        simp [List.length_take]; omega
      have hdrop : ((a :: b :: rest).drop ((a :: b :: rest).length / 2)).length
          = (a :: b :: rest).length - (a :: b :: rest).length / 2 := by
        simp [List.length_drop]
      obtain ⟨r1, hr1, hr1L, hr1s, hr1v⟩ :=
        ih ((a :: b :: rest).take ((a :: b :: rest).length / 2))
          (by omega)
          (by rw [← List.length_pos]; omega)
          (fun c hc => hmem c (List.take_subset _ _ hc))
      obtain ⟨r2, hr2, hr2L, hr2s, hr2v⟩ :=
        ih ((a :: b :: rest).drop ((a :: b :: rest).length / 2))
          (by omega)
          (by rw [← List.length_pos]; omega)
          (fun c hc => hmem c (List.drop_subset _ _ hc))
      refine ⟨{ level := r1.level, scale := r1.scale * r2.scale,
                size := 2, value := r1.value * r2.value }, ?_, hr1L, rfl, ?_⟩
      · simp only [multiply_many]
        rw [hr1, hr2]
        exact mulRelin_ok keys r1 r2 (by rw [hr1L, hr2L]) hr1s hr2s hk
      · rw [hr1v, hr2v]
        conv_rhs => rw [← List.take_append_drop ((a :: b :: rest).length / 2) (a :: b :: rest)]
        rw [List.map_append, List.prod_append]

theorem chain_fold_ok (keys : RelinKeys) (L : Nat) (hk : 1 ≤ keys.count) :
    ∀ (rest : List CiphertextData) (acc : CiphertextData),
      acc.level = L → acc.size = 2 →
      (∀ c ∈ rest, c.level = L ∧ c.size = 2) →
      ∃ r, List.foldlM (mulRelin keys) acc rest = .ok r ∧ r.level = L ∧
        r.size = 2 ∧ r.value = acc.value * (rest.map CiphertextData.value).prod := by
  intro rest
  induction rest with
  | nil =>
    intro acc h1 h2 _
    exact ⟨acc, rfl, h1, h2, by simp⟩
  | cons c cs ih =>
    intro acc h1 h2 hmem
    obtain ⟨hcL, hcs⟩ := hmem c (by simp)
    have hstep := mulRelin_ok keys acc c (by rw [h1, hcL]) h2 hcs hk
    obtain ⟨r, hr, hrL, hrs, hrv⟩ :=
      ih { level := acc.level, scale := acc.scale * c.scale, size := 2,
           value := acc.value * c.value } h1 rfl
        (fun d hd => hmem d (by simp [hd]))
    refine ⟨r, ?_, hrL, hrs, ?_⟩
    · simp only [List.foldlM]
      rw [hstep]
      exact hr
    · rw [hrv]
      simp [mul_assoc]

/-- C6: for every non-empty list of ciphertexts at uniform level id and
scale (freshly encrypted, hence of size 2) and relinearization keys
sufficient for size-3 relinearization, multiply-many returns a ciphertext
decrypting to the product of all list elements, equal in value to a
left-to-right chain of relinearized multiplications; and multiply-many
fails on an empty list. -/
theorem multiply_many_correct (keys : RelinKeys) (L : Nat) (S : ℚ)
    (l : List CiphertextData) (hne : l ≠ [])
    (hmem : ∀ c ∈ l, c.level = L ∧ c.scale = S ∧ c.size = 2)
    (hk : 1 ≤ keys.count) :
    (∃ r, multiply_many keys l = .ok r ∧
      r.value = (l.map CiphertextData.value).prod ∧
      ∃ rc, multiplyLinearChain keys l = .ok rc ∧ rc.value = r.value) ∧
    multiply_many keys [] = .error .engineFailure := by
  have hmem2 : ∀ c ∈ l, c.level = L ∧ c.size = 2 :=
    fun c hc => ⟨(hmem c hc).1, (hmem c hc).2.2⟩
  obtain ⟨r, hr, _, _, hrv⟩ :=
    multiply_many_ok keys L hk l.length l le_rfl hne hmem2
  refine ⟨⟨r, hr, hrv, ?_⟩, by simp [multiply_many]⟩
  cases l with
  | nil => exact absurd rfl hne
  | cons a rest =>
    obtain ⟨haL, has⟩ := hmem2 a (by simp)
    obtain ⟨rc, hrc, _, _, hrcv⟩ :=
      chain_fold_ok keys L hk rest a haL has
        (fun c hc => hmem2 c (by simp [hc]))
    refine ⟨rc, ?_, ?_⟩
    · simpa [multiplyLinearChain] using hrc
    · rw [hrcv, hrv]
      simp

/-- Witness for C6: two fresh level-0, scale-1, size-2 ciphertexts with
values 2 and 3 and a single relinearization key; multiply-many succeeds
with the product value, agrees with the linear chain, and the empty list
fails. -/
theorem multiply_many_correct_witness :
    ([CiphertextData.mk 0 1 2 2, CiphertextData.mk 0 1 2 3] ≠
      ([] : List CiphertextData)) ∧
    ((∃ r, multiply_many (RelinKeys.mk 1)
        [CiphertextData.mk 0 1 2 2, CiphertextData.mk 0 1 2 3] = .ok r ∧
      r.value = ([CiphertextData.mk 0 1 2 2, CiphertextData.mk 0 1 2 3].map
        CiphertextData.value).prod ∧
      ∃ rc, multiplyLinearChain (RelinKeys.mk 1)
          [CiphertextData.mk 0 1 2 2, CiphertextData.mk 0 1 2 3] = .ok rc ∧
        rc.value = r.value) ∧
    multiply_many (RelinKeys.mk 1) [] = .error .engineFailure) :=
  ⟨by simp, multiply_many_correct (RelinKeys.mk 1) 0 1
    [CiphertextData.mk 0 1 2 2, CiphertextData.mk 0 1 2 3]
    (by simp) (by simp) (by simp)⟩

/-- Modelled from the spec: exponentiate raises a ciphertext to an
integer power by a depth-optimal square-and-multiply addition chain,
relinearizing after every multiplication in the chain; exponent 0 is
defined to fail. -/
def exponentiate (keys : RelinKeys) (a : CiphertextData) (e : Nat) :
    Except SealError CiphertextData :=
  if h0 : e = 0 then .error .engineFailure
  else if h1 : e = 1 then .ok a
  else if e % 2 = 0 then
    match exponentiate keys a (e / 2) with
    | .error err => .error err
    | .ok h => mulRelin keys h h
  else
    match exponentiate keys a (e - 1) with
    | .error err => .error err
    | .ok h => mulRelin keys h a
  termination_by e
  decreasing_by
  · omega
  · omega

/-- C7: for every size-2 ciphertext `a` and sufficient relinearization
keys, `exponentiate(a, 4, keys)` returns a ciphertext that decrypts to
the 4th power of `a`'s plaintext and whose size equals 2, showing that
relinearization occurred after each multiplication in the chain. -/
theorem exponentiate_four (keys : RelinKeys) (a : CiphertextData)
    (ha : a.size = 2) (hk : 1 ≤ keys.count) :
    ∃ r, exponentiate keys a 4 = .ok r ∧ r.value = a.value ^ 4 ∧
      r.size = 2 := by
  have e1 : exponentiate keys a 1 = .ok a := by
    rw [exponentiate.eq_def]
    norm_num
  have hm := mulRelin_ok keys a a rfl ha ha hk
  have e2 : exponentiate keys a 2 =
      .ok { level := a.level, scale := a.scale * a.scale,
            size := 2, value := a.value * a.value } := by
    rw [exponentiate.eq_def]
    norm_num [e1, hm]
  have hmsq := mulRelin_ok keys
    { level := a.level, scale := a.scale * a.scale,
      size := 2, value := a.value * a.value }
    { level := a.level, scale := a.scale * a.scale,
      size := 2, value := a.value * a.value } rfl rfl rfl hk
  refine ⟨{ level := a.level, scale := (a.scale * a.scale) * (a.scale * a.scale),
            size := 2, value := (a.value * a.value) * (a.value * a.value) },
    ?_, ?_, rfl⟩
  · rw [exponentiate.eq_def]
    norm_num [e2, hmsq]
  · show (a.value * a.value) * (a.value * a.value) = a.value ^ 4
    ring

/-- Witness for C7: a fresh size-2 ciphertext with value 3 and a single
relinearization key; exponentiation by 4 yields value 3^4 at size 2. -/
theorem exponentiate_four_witness :
    (CiphertextData.mk 0 1 2 3).size = 2 ∧ 1 ≤ (RelinKeys.mk 1).count ∧
    ∃ r, exponentiate (RelinKeys.mk 1) (CiphertextData.mk 0 1 2 3) 4 = .ok r ∧
      r.value = (CiphertextData.mk 0 1 2 3).value ^ 4 ∧ r.size = 2 :=
  ⟨rfl, by decide,
    exponentiate_four (RelinKeys.mk 1) (CiphertextData.mk 0 1 2 3) rfl (by decide)⟩

/-! ## Claim C1: the CKKS sign-approximation pipeline -/

/-- The degree-3 sign-approximation coefficients COEFFS_N3 from
src/sealy/src/ext/sgn/mod.rs (exact dyadic rationals). -/
def COEFFS_N3 : List ℚ :=
  [0, 35/16, 0, -35/16, 0, 21/16, 0, -5/16]

/-- The degree-7 sign-approximation coefficients COEFFS_N7 from
src/sealy/src/ext/sgn/mod.rs. -/
def COEFFS_N7 : List ℚ :=
  [0, 6435/2048, 0, -15015/2048, 0, 27027/2048, 0, -32175/2048,
   0, 25025/2048, 0, -12285/2048, 0, 3465/2048, 0, -429/2048]

/-- The degree-15 sign-approximation coefficients COEFFS_N15 from
src/sealy/src/ext/sgn/mod.rs. -/
def COEFFS_N15 : List ℚ :=
  [0, 300540195/67108864, 0, -1502700975/67108864,
   0, 6311344095/67108864, 0, -19535112675/67108864,
   0, 45581929575/67108864, 0, -82047473235/67108864,
   0, 115707975075/67108864, 0, -128931743655/67108864,
   0, 113763303225/67108864, 0, -79168614525/67108864,
   0, 42977247885/67108864, 0, -17836407225/67108864,
   0, 5469831549/67108864, 0, -1168767425/67108864,
   0, 155451825/67108864, 0, -9694845/67108864]

/-- An evaluator call made by the sign-approximation pipeline: a
plaintext multiplication by a coefficient list, a relinearization, or a
rescale-to-next. -/
inductive SgnOp where
  | mulPlain (coeffs : List ℚ)
  | relin
  | rescale
deriving DecidableEq

/-- Embeds the CKKS sign_inplace call sequence of
src/sealy/src/ext/sgn/ckks.rs: a plaintext multiplication by the degree-3
coefficient plaintext followed by a relinearization, then the same for
the degree-7 coefficients, then a two-iteration loop doing the same for
the degree-15 coefficients; the source contains no rescale-to-next call
(each stage carries only a TODO comment for it). -/
def ckks_sign_ops : List SgnOp :=
  [SgnOp.mulPlain COEFFS_N3, SgnOp.relin] ++
  [SgnOp.mulPlain COEFFS_N7, SgnOp.relin] ++
  (List.range 2).flatMap (fun _ => [SgnOp.mulPlain COEFFS_N15, SgnOp.relin])

/-- C1 (refuting the rescale part): the CKKS sign_inplace pipeline
applies the degree-3, degree-7, then twice the degree-15 stage, each as a
plaintext multiplication followed by a relinearization, but contrary to
the claim no stage performs a rescale-to-next: no rescale operation occurs
anywhere in the call sequence. -/
theorem ckks_sign_missing_rescale :
    ckks_sign_ops =
      [SgnOp.mulPlain COEFFS_N3, SgnOp.relin,
       SgnOp.mulPlain COEFFS_N7, SgnOp.relin,
       SgnOp.mulPlain COEFFS_N15, SgnOp.relin,
       SgnOp.mulPlain COEFFS_N15, SgnOp.relin] ∧
    SgnOp.rescale ∉ ckks_sign_ops := by
  refine ⟨rfl, ?_⟩
  decide

/-! ## Claim C10: the BFV sign-approximation stub -/

/-- Outcome of a Rust call at the FFI-free level: a normal return, an
error return, or a panic such as the one raised by the todo macro. -/
inductive RustOutcome (α : Type) where
  | ok : α → RustOutcome α
  | err : SealError → RustOutcome α
  | panicked : RustOutcome α
deriving DecidableEq

/-- Embeds sign_inplace of src/sealy/src/ext/sgn/bfv.rs: the entire body
is an unconditional todo panic, reached before any input is consulted. -/
def bfv_sign_inplace (a : CiphertextData) (ctx : Context)
    (relin_keys : RelinKeys) : RustOutcome Unit :=
  RustOutcome.panicked

/-- C10: for every input ciphertext, context, and relinearization keys,
the BFV sign_inplace panics (unimplemented) and never returns either an
Ok or an error value. -/
theorem bfv_sign_inplace_panics (a : CiphertextData) (ctx : Context)
    (relin_keys : RelinKeys) :
    bfv_sign_inplace a ctx relin_keys = RustOutcome.panicked ∧
    (∀ u, bfv_sign_inplace a ctx relin_keys ≠ RustOutcome.ok u) ∧
    (∀ e, bfv_sign_inplace a ctx relin_keys ≠ RustOutcome.err e) := by
  refine ⟨rfl, ?_, ?_⟩ <;> intro x h <;> exact RustOutcome.noConfusion h

/-! ## Claims C8 - C9: the Rust wrapper layer over native handles -/

/-- Heap of native handles as the Rust wrappers see it: the next fresh
handle from the allocator and the contents of every allocated ciphertext
and plaintext handle. -/
structure StoreState where
  next : Nat
  mem : Nat → Option CiphertextData
  pmem : Nat → Option PlaintextData

/-- Allocator invariant: no handle at or above the allocation counter
holds a ciphertext. -/
def StoreWF (σ : StoreState) : Prop :=
  ∀ h, σ.next ≤ h → σ.mem h = none

/-- Reads the ciphertext behind a handle; a dangling handle surfaces as
an opaque engine failure. -/
def readC (mem : Nat → Option CiphertextData) (h : Nat) :
    Except SealError CiphertextData :=
  match mem h with
  | some c => .ok c
  | none => .error .engineFailure

/-- Reads the plaintext behind a handle; a dangling handle surfaces as an
opaque engine failure. -/
def readP (pmem : Nat → Option PlaintextData) (h : Nat) :
    Except SealError PlaintextData :=
  match pmem h with
  | some p => .ok p
  | none => .error .engineFailure

/-- One evaluator operation of the functional/in-place pair family,
carrying the operand handles and capability tokens its Rust signature
takes. The first handle is the operand the in-place variant overwrites. -/
inductive EvalOp where
  | negate (a : Nat)
  | add (a b : Nat)
  | sub (a b : Nat)
  | multiply (a b : Nat)
  | square (a : Nat)
  | relinearize (a : Nat) (keys : RelinKeys)
  | exponentiate (a : Nat) (e : Nat) (keys : RelinKeys)
  | rotateRows (a : Nat) (steps : Int) (gk : GaloisKeys)
  | rotateColumns (a : Nat) (gk : GaloisKeys)
  | rescaleToNext (a : Nat)
  | modSwitchToNext (a : Nat)
  | addPlain (a : Nat) (p : Nat)
  | subPlain (a : Nat) (p : Nat)
  | multiplyPlain (a : Nat) (p : Nat)

/-- The engine call both wrapper variants of an operation make: it reads
the operand handles and computes the contents of the destination. -/
def engineRun (ctx : Context) (op : EvalOp) (mem : Nat → Option CiphertextData)
    (pmem : Nat → Option PlaintextData) : Except SealError CiphertextData :=
  match op with
  | .negate a => do engineNegate (← readC mem a)
  | .add a b => do engineAdd (← readC mem a) (← readC mem b)
  | .sub a b => do engineSub (← readC mem a) (← readC mem b)
  | .multiply a b => do engineMultiply (← readC mem a) (← readC mem b)
  | .square a => do engineSquare (← readC mem a)
  | .relinearize a keys => do engineRelinearize keys (← readC mem a)
  | .exponentiate a e keys => do exponentiate keys (← readC mem a) e
  | .rotateRows a steps gk => do engineRotateRows ctx steps gk (← readC mem a)
  | .rotateColumns a gk => do engineRotateColumns gk (← readC mem a)
  | .rescaleToNext a => do engineRescaleToNext ctx (← readC mem a)
  | .modSwitchToNext a => do engineModSwitchToNext ctx (← readC mem a)
  | .addPlain a p => do engineAddPlain (← readC mem a) (← readP pmem p)
  | .subPlain a p => do engineSubPlain (← readC mem a) (← readP pmem p)
  | .multiplyPlain a p => do engineMultiplyPlain (← readC mem a) (← readP pmem p)

/-- Destination handle used by the in-place variant: its first operand,
whose handle the Rust wrapper passes to the engine both as input and as
destination. -/
def EvalOp.dest : EvalOp → Nat := fun op =>
  match op with
  | .negate a | .add a _ | .sub a _ | .multiply a _ | .square a
  | .relinearize a _ | .exponentiate a _ _ | .rotateRows a _ _
  | .rotateColumns a _ | .rescaleToNext a | .modSwitchToNext a
  | .addPlain a _ | .subPlain a _ | .multiplyPlain a _ => a

/-- The functional wrapper shape of src/sealy/src/evaluator.rs: allocate
a fresh output ciphertext handle, run the engine call with the operands
read-only, and write the result into the fresh handle only. -/
def applyOp (ctx : Context) (op : EvalOp) (σ : StoreState) :
    Except SealError (StoreState × Nat) :=
  match engineRun ctx op σ.mem σ.pmem with
  | .error e => .error e
  | .ok r =>
    .ok ({ next := σ.next + 1,
           mem := fun h => if h = σ.next then some r else σ.mem h,
           pmem := σ.pmem }, σ.next)

/-- The in-place wrapper shape of src/sealy/src/evaluator.rs: run the
same engine call but pass the first operand's handle as the
destination. -/
def applyOpInplace (ctx : Context) (op : EvalOp) (σ : StoreState) :
    Except SealError StoreState :=
  match engineRun ctx op σ.mem σ.pmem with
  | .error e => .error e
  | .ok r =>
    .ok { next := σ.next,
          mem := fun h => if h = op.dest then some r else σ.mem h,
          pmem := σ.pmem }

/-- Frame property of a functional evaluator operation on a well-formed
heap: the returned handle is the freshly allocated one (previously
unoccupied), every other handle - in particular every operand - is
unchanged, and no plaintext handle is written at all. -/
def FrameOK (σ : StoreState) : Except SealError (StoreState × Nat) → Prop
  | .ok (σ2, out) =>
      out = σ.next ∧ σ.mem out = none ∧
      (∀ h, h ≠ out → σ2.mem h = σ.mem h) ∧ σ2.pmem = σ.pmem
  | .error _ => True

/-- C8: every non-in-place evaluator operation (negate, add, sub,
multiply, square, relinearize, exponentiate, the rotations,
rescale-to-next, mod-switch-to-next, and the plain variants) leaves its
input ciphertext and plaintext operands unchanged and writes its result
only into a freshly created output handle. -/
theorem functional_ops_frame (ctx : Context) (op : EvalOp) (σ : StoreState)
    (hwf : StoreWF σ) : FrameOK σ (applyOp ctx op σ) := by
  unfold applyOp
  rcases hrun : engineRun ctx op σ.mem σ.pmem with e | r
  · exact trivial
  · refine ⟨rfl, hwf σ.next le_rfl, ?_, rfl⟩
    intro h hh
    simp [hh]

/-- A one-ciphertext heap used to witness the frame theorem. -/
def sampleStore : StoreState :=
  { next := 1,
    mem := fun h => if h = 0 then some (CiphertextData.mk 0 1 2 3) else none,
    pmem := fun _ => none }

/-- Witness for C8: the one-ciphertext heap is well-formed and negating
handle 0 satisfies the frame property. -/
theorem functional_ops_frame_witness :
    StoreWF sampleStore ∧
    FrameOK sampleStore
      (applyOp (Context.mk Scheme.ckks [2] 4) (EvalOp.negate 0) sampleStore) := by
  have hwf : StoreWF sampleStore := by
    intro h hh
    have h1 : (1 : Nat) ≤ h := hh
    have hne : h ≠ 0 := by omega
    simp [sampleStore, hne]
  exact ⟨hwf, functional_ops_frame (Context.mk Scheme.ckks [2] 4)
    (EvalOp.negate 0) sampleStore hwf⟩

/-- Agreement between the functional and the in-place variant of one
operation: both fail with the same error, or both succeed and the
destination operand of the in-place run holds exactly the value the
functional run returned, with plaintext memory equally untouched. -/
def InplaceAgrees (ctx : Context) (op : EvalOp) (σ : StoreState) : Prop :=
  match applyOp ctx op σ, applyOpInplace ctx op σ with
  | .ok (σ1, out), .ok σ2 =>
      σ2.mem op.dest = σ1.mem out ∧ σ2.pmem = σ1.pmem
  | .error e1, .error e2 => e1 = e2
  | _, _ => False

/-- C9: for every evaluator operation with an in-place and a functional
variant, running the in-place variant leaves its destination operand
holding exactly the value the functional variant returns for the same
inputs, and both variants fail identically. -/
theorem inplace_matches_functional (ctx : Context) (op : EvalOp)
    (σ : StoreState) : InplaceAgrees ctx op σ := by
  unfold InplaceAgrees
  rcases hrun : engineRun ctx op σ.mem σ.pmem with e | r
  · simp [applyOp, applyOpInplace, hrun]
  · simp [applyOp, applyOpInplace, hrun]

end SealRS
